import Mathlib

/-!
Verification development for the J-Agent core: the resume-profile extractor
(`src/services/resumeParser.js`) and the job matcher (`src/services/jobMatcher.js`).

Modelling conventions:
* JavaScript strings are modelled as Lean `String`s; all algorithms work on the
  underlying `List Char` with structural recursion so that concrete runs reduce
  in the kernel.  `s.includes(t)` is contiguous substring containment,
  `s.toLowerCase()` maps `Char.toLower` (all lexicon data is ASCII).
* JavaScript numbers are modelled as exact arithmetic: integer-valued scores as
  `ℤ`, fractional totals and ratios as `ℚ`.  `Math.round x` is `⌊x + 1/2⌋`
  (round half toward positive infinity), `Math.min`/`Math.max` are `min`/`max`.
* JavaScript objects used as string-keyed maps are association lists in key
  insertion order; `undefined`/`null` fields are `Option`.
* `Array.prototype.sort` (ES2019 and later) is a stable sort; it is modelled by
  a stable insertion sort with the source's comparator.
* The current calendar year (`new Date().getFullYear()`) is an explicit
  `currentYear : ℤ` parameter of the extraction pipeline.
-/

/-! ## JavaScript string primitives -/

/-- `toLowerCase` on the character list of a string. -/
def jsLowerL (cs : List Char) : List Char := cs.map Char.toLower

/-- JavaScript `String.prototype.includes`: `occursIn needle hay` is true iff
`needle` occurs contiguously in `hay`. -/
def occursIn (needle : List Char) : List Char → Bool
  | [] => needle.isEmpty
  | c :: t => needle.isPrefixOf (c :: t) || occursIn needle t

/-- `hay.includes(needle)` on Lean strings. -/
def jsIncludes (hay needle : String) : Bool := occursIn needle.data hay.data

/-- `s.toLowerCase()` on Lean strings. -/
def jsToLower (s : String) : String := ⟨jsLowerL s.data⟩

/-- JavaScript whitespace class `\s` restricted to ASCII (space, tab, line
feed, carriage return, form feed, vertical tab). -/
def jsIsSpace (c : Char) : Bool :=
  c = ' ' || c = '\t' || c = '\n' || c = '\r' || c = '\x0c' || c = '\x0b'

/-- Drop leading whitespace. -/
def dropLeadingSpace (cs : List Char) : List Char :=
  match cs with
  | [] => []
  | c :: t => if jsIsSpace c then dropLeadingSpace t else c :: t

/-- JavaScript `String.prototype.trim` on character lists. -/
def jsTrimL (cs : List Char) : List Char :=
  (dropLeadingSpace (dropLeadingSpace cs.reverse).reverse)

/-- `s.trim()` on Lean strings. -/
def jsTrim (s : String) : String := ⟨jsTrimL s.data⟩

/-! ## Data model

`RoleRecord`, `Profile` mirror the object literals produced by
`resumeParser.js`; `Job` keeps the two posting fields the scoring pipeline
reads (`title`, `description`) — the remaining display-only fields (company,
location, url, salary, postedDate, source) do not influence any claim. -/

/-- A role extracted from the resume text. -/
structure RoleRecord where
  title : String
  years : Option ℤ
  company : Option String
  rawLine : Option String
deriving DecidableEq, Repr

/-- Value of one category in the `experienceByRole` map. -/
structure ExperienceEntry where
  years : ℤ
  roles : List String
deriving DecidableEq, Repr

/-- The `primaryRole` object; `yearsInRole` is absent (`none`) in the
no-roles fallback branch of `determinePrimaryRole`. -/
structure PrimaryRole where
  type : String
  title : String
  yearsInRole : Option ℤ
deriving DecidableEq, Repr

/-- The `skills` object returned by `extractSkills`. -/
structure Skills where
  technical : List String
  tools : List String
  other : List String
deriving DecidableEq, Repr

/-- The candidate profile produced by `extractInformation`. -/
structure Profile where
  rawText : String
  roles : List RoleRecord
  experienceByRole : List (String × ExperienceEntry)
  totalYearsExperience : ℤ
  skills : Skills
  seniorityLevel : String
  education : List String
  primaryRole : PrimaryRole
  keywords : List String
deriving DecidableEq, Repr

/-- A job posting as consumed by the matcher (`description` may be absent). -/
structure Job where
  title : String
  description : Option String
deriving DecidableEq, Repr

/-! ## JobMatcher lexicon tables (constructor of `jobMatcher.js`) -/

/-- `this.roleSynonyms`: canonical role mapped to its synonym list. -/
def roleSynonyms : List (String × List String) :=
  [ ("software engineer", ["developer", "programmer", "swe", "software developer", "application developer"]),
    ("frontend engineer", ["frontend developer", "front-end developer", "ui developer", "react developer", "angular developer"]),
    ("backend engineer", ["backend developer", "back-end developer", "server developer", "api developer"]),
    ("full stack engineer", ["fullstack developer", "full-stack developer", "full stack developer"]),
    ("data scientist", ["ml engineer", "machine learning engineer", "ai engineer", "research scientist"]),
    ("data analyst", ["business analyst", "analytics specialist", "bi analyst"]),
    ("product manager", ["product owner", "pm", "program manager"]),
    ("ux designer", ["product designer", "ui designer", "interaction designer", "user experience designer"]),
    ("devops engineer", ["sre", "site reliability engineer", "platform engineer", "infrastructure engineer"]) ]

/-- `this.experienceLevels`: job level mapped to `(min, max)` years. -/
def experienceLevels : List (String × ℤ × ℤ) :=
  [ ("intern", 0, 0), ("entry", 0, 2), ("junior", 0, 2), ("mid", 2, 5),
    ("senior", 5, 10), ("staff", 7, 15), ("principal", 10, 20), ("lead", 5, 15),
    ("manager", 5, 15), ("director", 8, 20), ("vp", 10, 25) ]

/-! ## Role alignment score -/

/-- `titlesMatch(title1, title2)`: empty titles never match; otherwise direct
substring containment in either direction, else both titles hit the same
entry of the synonym table. -/
def titlesMatch (title1 title2 : String) : Bool :=
  if title1 = "" || title2 = "" then false
  else if jsIncludes title1 title2 || jsIncludes title2 title1 then true
  else
    roleSynonyms.any fun e =>
      let allVariants := e.1 :: e.2
      (allVariants.any fun v => jsIncludes title1 v) &&
        (allVariants.any fun v => jsIncludes title2 v)

/-- `sameRoleFamily(jobTitle, candidateRole)`: both titles contain a keyword
of the same coarse family. -/
def sameRoleFamily (jobTitle candidateRole : String) : Bool :=
  let families : List (String × List String) :=
    [ ("engineering", ["engineer", "developer", "programmer", "architect"]),
      ("product", ["product manager", "product owner", "program manager"]),
      ("design", ["designer", "ux", "ui"]),
      ("data", ["data scientist", "data analyst", "data engineer", "ml engineer"]) ]
  families.any fun f =>
    (f.2.any fun kw => jsIncludes jobTitle kw) &&
      (f.2.any fun kw => jsIncludes candidateRole kw)

/-- `relatedRoleType(jobTitle, roleType)`: the job title contains a keyword of
the keyword set for the candidate's primary role type. -/
def relatedRoleType (jobTitle roleType : String) : Bool :=
  if roleType = "" then false
  else
    let typeKeywords : List (String × List String) :=
      [ ("Engineering", ["engineer", "developer", "technical"]),
        ("Product", ["product", "program", "project"]),
        ("Design", ["design", "ux", "ui", "creative"]),
        ("Data", ["data", "analytics", "ml", "ai"]),
        ("Management", ["manager", "lead", "director", "head"]) ]
    let keywords := ((typeKeywords.find? fun e => e.1 == roleType).map (·.2)).getD []
    keywords.any fun kw => jsIncludes jobTitle kw

/-- `calculateRoleScore`: the discrete 100/85/70/50/20 ladder. -/
def calculateRoleScore (resumeData : Profile) (job : Job) : ℤ :=
  let jobTitle := jsToLower job.title
  let candidateRoles := resumeData.roles.map fun r => jsToLower r.title
  let primaryRole := jsToLower resumeData.primaryRole.title
  if titlesMatch jobTitle primaryRole then 100
  else if candidateRoles.any fun role => titlesMatch jobTitle role then 85
  else if sameRoleFamily jobTitle primaryRole then 70
  else if relatedRoleType jobTitle resumeData.primaryRole.type then 50
  else 20

/-! ## Experience level score -/

/-- `extractJobLevel(jobTitle)`: keyword scan of the title with the source's
fixed precedence; defaults to `"mid"`. -/
def extractJobLevel (jobTitle : String) : String :=
  let title := jsToLower jobTitle
  if jsIncludes title "intern" then "intern"
  else if jsIncludes title "junior" || jsIncludes title "jr." || jsIncludes title "entry" then "junior"
  else if jsIncludes title "principal" then "principal"
  else if jsIncludes title "staff" then "staff"
  else if jsIncludes title "senior" || jsIncludes title "sr." then "senior"
  else if jsIncludes title "lead" || jsIncludes title "tech lead" then "lead"
  else if jsIncludes title "manager" && !(jsIncludes title "product manager") then "manager"
  else if jsIncludes title "director" then "director"
  else if jsIncludes title "vp" || jsIncludes title "vice president" then "vp"
  else "mid"

/-- Read `experienceByRole[key]?.years || 0` (absent category reads as 0;
a stored 0 is falsy and also reads as 0, the same value). -/
def lookupYears (m : List (String × ExperienceEntry)) (key : String) : ℤ :=
  match m.find? fun e => e.1 == key with
  | some e => e.2.years
  | none => 0

/-- `getRelevantExperience(resumeData, job)`: select the experience category
matching the posting's domain, else fall back to total experience. -/
def getRelevantExperience (resumeData : Profile) (job : Job) : ℤ :=
  let jobTitle := jsToLower job.title
  let experienceByRole := resumeData.experienceByRole
  if jsIncludes jobTitle "engineer" || jsIncludes jobTitle "developer" then
    lookupYears experienceByRole "Engineering"
  else if jsIncludes jobTitle "product manager" || jsIncludes jobTitle "program manager" then
    lookupYears experienceByRole "Product"
  else if jsIncludes jobTitle "designer" || jsIncludes jobTitle "ux" || jsIncludes jobTitle "ui" then
    lookupYears experienceByRole "Design"
  else if jsIncludes jobTitle "data" || jsIncludes jobTitle "analyst" || jsIncludes jobTitle "ml" then
    lookupYears experienceByRole "Data"
  else if jsIncludes jobTitle "manager" || jsIncludes jobTitle "director" || jsIncludes jobTitle "lead" then
    lookupYears experienceByRole "Management"
  else resumeData.totalYearsExperience

/-- `calculateExperienceScore`: band position score followed by the
career-pivot override.  The source also computes `requiredYears`
(`extractRequiredExperience`) and `candidateLevel`; both are dead locals that
do not influence the returned score and are not modelled. -/
def calculateExperienceScore (resumeData : Profile) (job : Job) : ℤ :=
  let jobTitle := jsToLower job.title
  let jobLevel := extractJobLevel jobTitle
  let relevantExperience := getRelevantExperience resumeData job
  let levelRequirements :=
    (((experienceLevels.find? fun e => e.1 == jobLevel).map (·.2)).getD (0, 100))
  let score : ℤ :=
    if levelRequirements.1 ≤ relevantExperience ∧ relevantExperience ≤ levelRequirements.2 + 2 then
      100
    else if levelRequirements.1 - 1 ≤ relevantExperience ∧ relevantExperience ≤ levelRequirements.2 + 3 then
      80
    else if relevantExperience < levelRequirements.1 then
      max 0 (70 - (levelRequirements.1 - relevantExperience) * 15)
    else
      max 40 (90 - (relevantExperience - levelRequirements.2) * 10)
  if 5 < resumeData.totalYearsExperience ∧ relevantExperience < 3 then
    if jobLevel == "senior" || jobLevel == "lead" || jobLevel == "manager" then
      min score 40
    else if jobLevel == "mid" || jobLevel == "junior" || jobLevel == "entry" then
      max score 70
    else score
  else score

/-! ## Content score -/

/-- `Math.round x` for JavaScript numbers modelled in `ℚ`. -/
def jsRound (q : ℚ) : ℤ := ⌊q + 1/2⌋

/-- The fixed reference vocabulary `technicalTerms` of
`calculateContentScore`. -/
def technicalTerms : List String :=
  [ "javascript", "python", "java", "react", "node", "aws", "sql", "docker",
    "kubernetes", "agile", "scrum", "typescript", "angular", "vue", "go",
    "postgresql", "mongodb", "redis", "graphql", "rest", "api", "ci/cd",
    "figma", "sketch", "adobe", "analytics", "tableau", "spark" ]

/-- `calculateContentScore`: matched candidate skills against the reference
vocabulary count.  The source also builds `allCandidateTerms` from the
profile keywords; it is a dead local and is not modelled. -/
def calculateContentScore (resumeData : Profile) (job : Job) : ℤ :=
  let candidateSkills := resumeData.skills.technical.map jsToLower
  let jobText := jsToLower job.title ++ " " ++ jsToLower (job.description.getD "")
  let matchedSkills := (candidateSkills.filter fun skill => jsIncludes jobText skill).length
  let totalJobSkills := (technicalTerms.filter fun term => jsIncludes jobText term).length
  if totalJobSkills = 0 then
    if candidateSkills.length > 0 then 75 else 50
  else
    let matchRatio : ℚ := (matchedSkills : ℚ) / (max totalJobSkills 1 : ℕ)
    let score : ℚ := min 100 (matchRatio * 120)
    jsRound score

/-! ## Total score, confidence, categorization -/

/-- The score breakdown attached to each posting. -/
structure Scores where
  role : ℤ
  experience : ℤ
  content : ℤ
  total : ℚ
deriving DecidableEq, Repr

/-- `calculateMatchScore`: 0.40/0.35/0.25 weighted total, rounded to two
decimal places. -/
def calculateMatchScore (resumeData : Profile) (job : Job) : Scores :=
  let roleScore := calculateRoleScore resumeData job
  let experienceScore := calculateExperienceScore resumeData job
  let contentScore := calculateContentScore resumeData job
  let total : ℚ :=
    (roleScore : ℚ) * (40/100) + (experienceScore : ℚ) * (35/100) + (contentScore : ℚ) * (25/100)
  { role := roleScore, experience := experienceScore, content := contentScore,
    total := (jsRound (total * 100) : ℚ) / 100 }

/-- Branch of `calculateConfidence` for `total ≥ 85`. -/
def confidenceHighBand (total : ℚ) : ℤ := min 95 (jsRound (90 + (total - 85) * (33/100)))

/-- Branch of `calculateConfidence` for `60 ≤ total < 85`. -/
def confidenceMidBand (total : ℚ) : ℤ := jsRound (70 + (total - 60) * (76/100))

/-- Branch of `calculateConfidence` for `40 ≤ total < 60`. -/
def confidenceLowBand (total : ℚ) : ℤ := jsRound (50 + (total - 40) * (95/100))

/-- Branch of `calculateConfidence` for `total < 40`. -/
def confidenceBottomBand (total : ℚ) : ℤ := jsRound (total * (125/100))

/-- `calculateConfidence(scores)`: piecewise-linear remap of the total. -/
def calculateConfidence (scores : Scores) : ℤ :=
  let total := scores.total
  if 85 ≤ total then confidenceHighBand total
  else if 60 ≤ total then confidenceMidBand total
  else if 40 ≤ total then confidenceLowBand total
  else confidenceBottomBand total

/-- A posting together with its scores, as spread into the result objects of
`matchJobs` (`matchScore` duplicates `scores.total`). -/
structure ScoredJob where
  job : Job
  matchScore : ℚ
  scores : Scores
  confidence : ℤ
deriving DecidableEq, Repr

/-- The body of the `jobs.map` in `matchJobs`. -/
def scoreJob (resumeData : Profile) (job : Job) : ScoredJob :=
  let scores := calculateMatchScore resumeData job
  { job := job, matchScore := scores.total, scores := scores,
    confidence := calculateConfidence scores }

/-- Stable insertion of `x` before the first element with strictly smaller
`matchScore` (the element being inserted precedes, in input order, every
element of the list it is inserted into). -/
def insertByScore (x : ScoredJob) : List ScoredJob → List ScoredJob
  | [] => [x]
  | y :: ys => if y.matchScore ≤ x.matchScore then x :: y :: ys else y :: insertByScore x ys

/-- Stable sort by `matchScore` descending: the model of
`scoredJobs.sort((a, b) => b.matchScore - a.matchScore)` under the ES2019
stable-sort guarantee. -/
def sortByScoreDesc : List ScoredJob → List ScoredJob
  | [] => []
  | x :: xs => insertByScore x (sortByScoreDesc xs)

/-- The three views returned by `matchJobs`. -/
structure MatchResult where
  recommended : List ScoredJob
  worthExploring : List ScoredJob
  all : List ScoredJob
deriving DecidableEq, Repr

/-- `matchJobs(resumeData, jobs)`: score, stably sort descending, and filter
the two confidence windows. -/
def matchJobs (resumeData : Profile) (jobs : List Job) : MatchResult :=
  let scoredJobs := jobs.map (scoreJob resumeData)
  let sorted := sortByScoreDesc scoredJobs
  { recommended := sorted.filter fun job => decide (90 ≤ job.confidence ∧ job.confidence ≤ 95)
    worthExploring := sorted.filter fun job => decide (70 ≤ job.confidence ∧ job.confidence < 90)
    all := sorted }

/-! ## A backtracking matcher engine for the parser's regular expressions

A `Matcher` consumes characters from the current position of the subject.
It receives the character immediately before the position (`none` at the
start of the subject — needed for the word-boundary assertion) and the
remaining characters, and returns the consumed lengths of all possible
matches in JavaScript backtracking priority order: the head of the list is
the alternative the JavaScript engine commits to. -/

/-- Matchers over character lists. -/
def Matcher : Type := Option Char → List Char → List Nat

/-- The empty match. -/
def mEps : Matcher := fun _ _ => [0]

/-- A single character of a class. -/
def mCharP (p : Char → Bool) : Matcher := fun _ cs =>
  match cs with
  | [] => []
  | c :: _ => if p c then [1] else []

/-- The character preceding the position reached after consuming `n`
characters of `cs` from a position preceded by `prev`. -/
def lastOf (prev : Option Char) (cs : List Char) (n : Nat) : Option Char :=
  if n = 0 then prev else (cs.take n).getLast?

/-- Sequencing, threading the preceding-character context. -/
def mSeq (a b : Matcher) : Matcher := fun prev cs =>
  (a prev cs).flatMap fun n => (b (lastOf prev cs n) (cs.drop n)).map (n + ·)

/-- Ordered alternation (left alternative preferred). -/
def mAlt (a b : Matcher) : Matcher := fun prev cs => a prev cs ++ b prev cs

/-- Ordered alternation over a list of matchers. -/
def mAlts (ms : List Matcher) : Matcher := fun prev cs => ms.flatMap fun m => m prev cs

/-- Case-insensitive literal. -/
def mLitCI (lit : String) : Matcher := fun _ cs =>
  if (jsLowerL lit.data).isPrefixOf (jsLowerL (cs.take lit.data.length)) then
    [lit.data.length]
  else []

/-- Length of the longest prefix inside a character class. -/
def leadingCount (p : Char → Bool) : List Char → Nat
  | [] => 0
  | c :: t => if p c then leadingCount p t + 1 else 0

/-- The list `[k, k-1, ..., 1]`. -/
def countdownFrom (k : Nat) : List Nat := (List.range k).map fun j => k - j

/-- Greedy `+` over a character class: longest first, at least one. -/
def mPlusGreedy (p : Char → Bool) : Matcher := fun _ cs => countdownFrom (leadingCount p cs)

/-- Greedy `*` over a character class: longest first, possibly zero. -/
def mStarGreedy (p : Char → Bool) : Matcher := fun _ cs => countdownFrom (leadingCount p cs) ++ [0]

/-- Lazy `*?` over a character class: shortest first. -/
def mStarLazy (p : Char → Bool) : Matcher := fun _ cs => List.range (leadingCount p cs + 1)

/-- Greedy `?` over a single case-insensitive character: consuming preferred. -/
def mOptCharCI (c : Char) : Matcher := fun _ cs =>
  match cs with
  | [] => [0]
  | x :: _ => if x.toLower = c.toLower then [1, 0] else [0]

/-- Greedy `*` over a compound matcher, fuelled (every use consumes at least
one character per repetition, so fuel = subject length is exact). -/
def mStarG (a : Matcher) : Nat → Matcher
  | 0 => mEps
  | fuel + 1 => mAlt (mSeq a (mStarG a fuel)) mEps

/-- JavaScript `\w`. -/
def isWordChar (c : Char) : Bool := c.isAlphanum || c = '_'

/-- Word-ness of an optional character (subject edges count as non-word). -/
def isWordOpt : Option Char → Bool
  | none => false
  | some c => isWordChar c

/-- The `\b` word-boundary assertion. -/
def mBoundary : Matcher := fun prev cs =>
  if isWordOpt prev != isWordOpt cs.head? then [0] else []

/-- Leftmost match search: returns `(skipped, consumed)` for the first
position at which the matcher succeeds. -/
def findFirstMatch (m : Matcher) (prev : Option Char) (cs : List Char) : Option (Nat × Nat) :=
  match (m prev cs).head? with
  | some n => some (0, n)
  | none =>
    match cs with
    | [] => none
    | c :: t => (findFirstMatch m (some c) t).map fun r => (r.1 + 1, r.2)

/-- The preceding-character context after consuming `k` characters of `cs`. -/
def prevAfter (prev : Option Char) (cs : List Char) (k : Nat) : Option Char :=
  match (cs.take k).getLast? with
  | some c => some c
  | none => prev

/-- All non-overlapping leftmost matches (the `g`-flag `match`/`exec` loop),
returning the matched segments. -/
def execAllSegs (m : Matcher) : Nat → Option Char → List Char → List (List Char)
  | 0, _, _ => []
  | fuel + 1, prev, cs =>
    match findFirstMatch m prev cs with
    | none => []
    | some (skip, n) =>
      let rest := cs.drop skip
      rest.take n :: execAllSegs m fuel (prevAfter prev cs (skip + n)) (rest.drop n)

/-! ## ResumeParser lexicon tables (constructor of `resumeParser.js`) -/

/-- `this.roleTitles`. -/
def roleTitles : List String :=
  [ "software engineer", "senior software engineer", "staff engineer", "principal engineer",
    "frontend engineer", "backend engineer", "full stack engineer", "fullstack engineer",
    "devops engineer", "site reliability engineer", "sre", "platform engineer",
    "data engineer", "machine learning engineer", "ml engineer", "ai engineer",
    "qa engineer", "test engineer", "automation engineer",
    "product manager", "senior product manager", "product owner", "program manager",
    "product designer", "ux designer", "ui designer", "ux/ui designer",
    "graphic designer", "visual designer", "interaction designer",
    "data scientist", "data analyst", "business analyst", "analytics engineer",
    "engineering manager", "technical lead", "tech lead", "team lead",
    "director of engineering", "vp of engineering", "cto", "ceo",
    "project manager", "scrum master", "agile coach",
    "marketing manager", "digital marketing", "content manager", "seo specialist",
    "sales manager", "account executive", "business development",
    "consultant", "analyst", "specialist", "coordinator", "administrator",
    "intern", "associate", "junior", "senior", "lead", "head of", "chief" ]

/-- `this.technicalSkills`. -/
def technicalSkills : List String :=
  [ "javascript", "typescript", "python", "java", "c++", "c#", "go", "golang", "rust",
    "ruby", "php", "swift", "kotlin", "scala", "r", "matlab", "sql",
    "react", "reactjs", "react.js", "angular", "vue", "vuejs", "vue.js", "svelte",
    "next.js", "nextjs", "nuxt", "gatsby", "html", "css", "sass", "scss", "tailwind",
    "node.js", "nodejs", "express", "django", "flask", "fastapi", "spring", "spring boot",
    ".net", "rails", "laravel", "graphql", "rest api", "microservices",
    "mysql", "postgresql", "postgres", "mongodb", "redis", "elasticsearch",
    "dynamodb", "cassandra", "sqlite", "oracle", "sql server",
    "aws", "amazon web services", "azure", "gcp", "google cloud",
    "docker", "kubernetes", "k8s", "terraform", "ansible", "jenkins",
    "ci/cd", "github actions", "gitlab", "circleci",
    "tensorflow", "pytorch", "scikit-learn", "pandas", "numpy", "spark",
    "hadoop", "kafka", "airflow", "tableau", "power bi",
    "git", "jira", "confluence", "figma", "sketch", "adobe xd", "photoshop",
    "agile", "scrum", "kanban" ]

/-- `this.seniorityIndicators` (entry insertion order preserved). -/
def seniorityIndicators : List (String × List String) :=
  [ ("entry", ["intern", "internship", "junior", "entry level", "associate", "graduate", "trainee"]),
    ("mid", ["mid-level", "mid level", "intermediate", "2+ years", "3+ years", "2-4 years"]),
    ("senior", ["senior", "sr.", "lead", "principal", "5+ years", "6+ years", "7+ years"]),
    ("manager", ["manager", "director", "head of", "vp", "chief", "c-level", "executive"]) ]

/-! ## Role-line parsing -/

/-- Numeric value of a digit character. -/
def digitVal (c : Char) : Nat := c.toNat - '0'.toNat

/-- Match `\d{4}` at the start: the year value and the rest. -/
def fourDigitsAt : List Char → Option (Nat × List Char)
  | a :: b :: c :: d :: rest =>
    if a.isDigit && b.isDigit && c.isDigit && d.isDigit then
      some (((digitVal a * 10 + digitVal b) * 10 + digitVal c) * 10 + digitVal d, rest)
    else none
  | _ => none

/-- Case-insensitive literal test at the start of a character list. -/
def litCIAt (lit : String) (cs : List Char) : Bool :=
  (jsLowerL lit.data).isPrefixOf (jsLowerL cs)

/-- Match the year-range pattern `(\d{4})\s*[-–]\s*(\d{4}|present|current)`
(flag `i`) at the start: start year, and `none` as the end when the second
alternative matched `present`/`current`.  `\s*` is safe to take greedily
because the following character class contains no whitespace. -/
def yearRangeAt (cs : List Char) : Option (Nat × Option Nat) :=
  match fourDigitsAt cs with
  | none => none
  | some (startYear, rest) =>
    match rest.dropWhile jsIsSpace with
    | [] => none
    | c :: rest3 =>
      if c = '-' || c = '–' then
        let rest4 := rest3.dropWhile jsIsSpace
        match fourDigitsAt rest4 with
        | some (endYear, _) => some (startYear, some endYear)
        | none =>
          if litCIAt "present" rest4 || litCIAt "current" rest4 then
            some (startYear, none)
          else none
      else none

/-- Leftmost match of the year-range pattern (`String.prototype.match`). -/
def findYearRange : List Char → Option (Nat × Option Nat)
  | [] => none
  | c :: t =>
    match yearRangeAt (c :: t) with
    | some r => some r
    | none => findYearRange t

/-- Split a character list at every occurrence of a separator character
(JavaScript `split` with a single-character separator). -/
def splitOnChar (sep : Char) : List Char → List (List Char)
  | [] => [[]]
  | c :: t =>
    match splitOnChar sep t with
    | [] => [[]]
    | w :: ws => if c = sep then [] :: w :: ws else (c :: w) :: ws

/-- `word.charAt(0).toUpperCase() + word.slice(1).toLowerCase()`. -/
def capWord : List Char → List Char
  | [] => []
  | c :: t => Char.toUpper c :: jsLowerL t

/-- `capitalizeTitle(title)`: capitalize each space-separated word. -/
def capitalizeTitle (title : String) : String :=
  ⟨List.intercalate [' '] ((splitOnChar ' ' title.data).map capWord)⟩

/-- `parseRoleLine(line, matchedRole)`: extract the year span (resolving
`present`/`current` to `currentYear`) and the properly capitalized title. -/
def parseRoleLine (currentYear : ℤ) (line : String) (matchedRole : String) : RoleRecord :=
  let cleanLine := jsTrim line
  let years : Option ℤ :=
    match findYearRange cleanLine.data with
    | none => none
    | some (startYear, endOpt) =>
      let endYear : ℤ := match endOpt with
        | some e => (e : ℤ)
        | none => currentYear
      some (endYear - (startYear : ℤ))
  { title := capitalizeTitle matchedRole, years := years, company := none,
    rawLine := some cleanLine }

/-! ## Role extraction -/

/-- The trailing alternation of the two role patterns. -/
def roleSuffixes : List String :=
  [ "Engineer", "Developer", "Designer", "Manager", "Analyst", "Scientist",
    "Lead", "Director", "Specialist", "Consultant" ]

/-- Group 1 of the role patterns: `[A-Z][a-zA-Z\s]+(?:Engineer|…|Consultant)`
under flag `i` (so `[A-Z]` is any letter). -/
def roleTitleGroupM : Matcher :=
  mSeq (mCharP fun c => c.isAlpha)
    (mSeq (mPlusGreedy fun c => c.isAlpha || jsIsSpace c)
      (mAlts (roleSuffixes.map mLitCI)))

/-- Separator of the first role pattern: `\s+(?:at|@|\||-)\s+`. -/
def sepAtM : Matcher :=
  mSeq (mPlusGreedy jsIsSpace)
    (mSeq (mAlts [mLitCI "at", mLitCI "@", mLitCI "|", mLitCI "-"])
      (mPlusGreedy jsIsSpace))

/-- Separator of the second role pattern: `\s*[\n,]\s*`. -/
def sepNlM : Matcher :=
  mSeq (mStarGreedy jsIsSpace)
    (mSeq (mCharP fun c => c = '\n' || c = ',')
      (mStarGreedy jsIsSpace))

/-- Group 2 of the role patterns: `([A-Za-z0-9\s&.]+)`. -/
def companyGroupM : Matcher :=
  mPlusGreedy fun c => c.isAlphanum || jsIsSpace c || c = '&' || c = '.'

/-- Match a role pattern at the current position: the consumed lengths
`(group1, separator, group2)` of the match JavaScript commits to. -/
def rolePatternAt (sep : Matcher) (prev : Option Char) (cs : List Char) :
    Option (Nat × Nat × Nat) :=
  ((roleTitleGroupM prev cs).flatMap fun n1 =>
    ((sep (lastOf prev cs n1) (cs.drop n1)).flatMap fun ns =>
      ((companyGroupM (lastOf prev cs (n1 + ns)) (cs.drop (n1 + ns))).map fun n2 =>
        (n1, ns, n2)))).head?

/-- Leftmost match of a role pattern: `(skipped, group1, separator, group2)`. -/
def findRoleMatch (sep : Matcher) : Option Char → List Char → Option (Nat × Nat × Nat × Nat)
  | prev, [] =>
    match rolePatternAt sep prev [] with
    | some (n1, ns, n2) => some (0, n1, ns, n2)
    | none => none
  | prev, c :: t =>
    match rolePatternAt sep prev (c :: t) with
    | some (n1, ns, n2) => some (0, n1, ns, n2)
    | none => (findRoleMatch sep (some c) t).map fun r => (r.1 + 1, r.2)

/-- The `exec` loop over a role pattern: all non-overlapping matches as
`(title, company)` capture pairs, both trimmed as in the source. -/
def execRolePattern (sep : Matcher) : Nat → Option Char → List Char → List (String × String)
  | 0, _, _ => []
  | fuel + 1, prev, cs =>
    match findRoleMatch sep prev cs with
    | none => []
    | some (skip, n1, ns, n2) =>
      let rest := cs.drop skip
      let title : String := ⟨jsTrimL (rest.take n1)⟩
      let company : String := ⟨jsTrimL ((rest.drop (n1 + ns)).take n2)⟩
      let consumed := skip + n1 + ns + n2
      (title, company) :: execRolePattern sep fuel (prevAfter prev cs consumed) (cs.drop consumed)

/-- The duplicate test of `extractRoles`: an already-found role with the same
case-insensitive title. -/
def rolesDedupHas (foundRoles : List RoleRecord) (title : String) : Bool :=
  foundRoles.any fun r => jsToLower r.title == jsToLower title

/-- `extractRoles(text, normalizedText)`: the lexicon pass (line by line, in
lexicon order within a line) followed by the two regex-pattern passes, each
suppressing case-insensitive duplicate titles. -/
def extractRoles (currentYear : ℤ) (text : String) : List RoleRecord :=
  let lines := splitOnChar '\n' text.data
  let fromLexicon := lines.foldl (fun foundRoles line =>
    let normalizedLine := jsTrimL (jsLowerL line)
    roleTitles.foldl (fun foundRoles role =>
      if occursIn role.data normalizedLine then
        let roleInfo := parseRoleLine currentYear ⟨line⟩ role
        if rolesDedupHas foundRoles roleInfo.title then foundRoles
        else foundRoles ++ [roleInfo]
      else foundRoles) foundRoles) []
  let fuel := text.data.length + 1
  let pass1 := (execRolePattern sepAtM fuel none text.data).foldl (fun foundRoles tc =>
    if rolesDedupHas foundRoles tc.1 then foundRoles
    else foundRoles ++ [{ title := tc.1, company := some tc.2, years := none, rawLine := none }]) fromLexicon
  (execRolePattern sepNlM fuel none text.data).foldl (fun foundRoles tc =>
    if rolesDedupHas foundRoles tc.1 then foundRoles
    else foundRoles ++ [{ title := tc.1, company := some tc.2, years := none, rawLine := none }]) pass1

/-! ## Experience rollup -/

/-- `this.roleTypes` of `calculateExperienceByRole`. -/
def roleTypes : List (String × List String) :=
  [ ("Engineering", ["engineer", "developer", "architect", "devops", "sre"]),
    ("Product", ["product manager", "product owner", "program manager"]),
    ("Design", ["designer", "ux", "ui"]),
    ("Data", ["data scientist", "data analyst", "data engineer", "ml engineer"]),
    ("Management", ["manager", "director", "lead", "head of", "vp", "chief"]) ]

/-- The contribution of `if (role.years) { … += role.years }`: `null` and the
falsy value `0` contribute nothing, any other value is added as is (so a
negative span is added). -/
def truthyYears : Option ℤ → ℤ
  | none => 0
  | some y => if y = 0 then 0 else y

/-- Add a role to its category's entry of the experience map, creating the
entry at the end of the association list (JavaScript key insertion order). -/
def updateEntry : List (String × ExperienceEntry) → String → RoleRecord → List (String × ExperienceEntry)
  | [], type, r => [(type, ⟨truthyYears r.years, [r.title]⟩)]
  | (k, e) :: rest, type, r =>
    if k = type then (k, ⟨e.years + truthyYears r.years, e.roles ++ [r.title]⟩) :: rest
    else (k, e) :: updateEntry rest type r

/-- `calculateExperienceByRole(text, roles)`: classify each role into the
categories whose keywords its title contains, sum the explicit years, then
fallback-estimate two years per role for categories with zero summed years.
The `text` parameter and the `datePatterns` local of the source are dead
(never read) and are not modelled. -/
def calculateExperienceByRole (roles : List RoleRecord) : List (String × ExperienceEntry) :=
  let experienceMap := roles.foldl (fun m role =>
    let roleTitle := jsToLower role.title
    roleTypes.foldl (fun m tk =>
      if tk.2.any fun kw => jsIncludes roleTitle kw then updateEntry m tk.1 role else m) m) []
  experienceMap.map fun e =>
    if e.2.years = 0 ∧ e.2.roles.length > 0 then (e.1, ⟨(e.2.roles.length : ℤ) * 2, e.2.roles⟩)
    else e

/-- `calculateTotalExperience(experienceByRole)`: category sum capped at 30. -/
def calculateTotalExperience (experienceByRole : List (String × ExperienceEntry)) : ℤ :=
  min (experienceByRole.foldl (fun total e => total + e.2.years) 0) 30

/-! ## Skills, seniority, education, primary role, keywords -/

/-- `[...new Set(xs)]`: de-duplicate keeping first occurrences in order. -/
def dedupKeepFirstAux (seen : List String) : List String → List String
  | [] => []
  | s :: t =>
    if seen.contains s then dedupKeepFirstAux seen t
    else s :: dedupKeepFirstAux (s :: seen) t

/-- The per-skill test of `extractSkills`: the escaped skill as a literal
between two word boundaries, case-insensitively (`new RegExp('\\b…\\b','i')`). -/
def skillRegexTest (skill : String) (text : List Char) : Bool :=
  (findFirstMatch (mSeq mBoundary (mSeq (mLitCI skill) mBoundary)) none text).isSome

/-- `extractSkills(normalizedText)`: boundary-matched scan of the technical
vocabulary; hits capitalized, de-duplicated, lexicon order preserved.  The
`tools` and `other` buckets are never filled by the source. -/
def extractSkills (normalizedText : String) : Skills :=
  let technical := (technicalSkills.filter fun skill =>
    skillRegexTest skill normalizedText.data).map capitalizeTitle
  { technical := dedupKeepFirstAux [] technical, tools := [], other := [] }

/-- `determineSeniorityLevel(normalizedText, experienceByRole)`: first tier
with an indicator present in the text wins; otherwise year thresholds. -/
def determineSeniorityLevel (normalizedText : String)
    (experienceByRole : List (String × ExperienceEntry)) : String :=
  let totalYears := calculateTotalExperience experienceByRole
  match seniorityIndicators.find? fun li => li.2.any fun ind => jsIncludes normalizedText ind with
  | some li => li.1
  | none =>
    if totalYears ≤ 2 then "entry"
    else if totalYears ≤ 5 then "mid"
    else if totalYears ≤ 10 then "senior"
    else "manager"

/-- An optional case-insensitive apostrophe-or-letter: builds the degree
alternatives of the education patterns. -/
def eduDegreeAlts1 : Matcher :=
  mAlts
    [ mSeq (mLitCI "bachelor") (mSeq (mOptCharCI '\'') (mOptCharCI 's')),
      mSeq (mLitCI "b") (mSeq (mOptCharCI '.') (mSeq (mLitCI "s") (mOptCharCI '.'))),
      mSeq (mLitCI "b") (mSeq (mOptCharCI '.') (mSeq (mLitCI "a") (mOptCharCI '.'))) ]

/-- Degree alternatives of the master-level education pattern. -/
def eduDegreeAlts2 : Matcher :=
  mAlts
    [ mSeq (mLitCI "master") (mSeq (mOptCharCI '\'') (mOptCharCI 's')),
      mSeq (mLitCI "m") (mSeq (mOptCharCI '.') (mSeq (mLitCI "s") (mOptCharCI '.'))),
      mSeq (mLitCI "m") (mSeq (mOptCharCI '.') (mSeq (mLitCI "a") (mOptCharCI '.'))),
      mLitCI "mba" ]

/-- Degree alternatives of the doctorate-level education pattern. -/
def eduDegreeAlts3 : Matcher :=
  mAlts
    [ mSeq (mLitCI "ph") (mSeq (mOptCharCI '.') (mSeq (mLitCI "d") (mOptCharCI '.'))),
      mLitCI "doctorate" ]

/-- Assemble one education pattern: `\b(degrees)\b.*?(fields)` where `.` does
not cross a line feed. -/
def eduPattern (degrees : Matcher) (fields : List String) : Matcher :=
  mSeq mBoundary
    (mSeq degrees
      (mSeq mBoundary
        (mSeq (mStarLazy fun c => c ≠ '\n')
          (mAlts (fields.map mLitCI)))))

/-- The three `degreePatterns` of `extractEducation`. -/
def degreePatterns : List Matcher :=
  [ eduPattern eduDegreeAlts1 ["computer science", "engineering", "business", "design", "mathematics", "physics"],
    eduPattern eduDegreeAlts2 ["computer science", "engineering", "business", "design", "data science"],
    eduPattern eduDegreeAlts3 ["computer science", "engineering"] ]

/-- `extractEducation(normalizedText)`: all matches of each degree pattern,
trimmed, then de-duplicated. -/
def extractEducation (normalizedText : String) : List String :=
  let fuel := normalizedText.data.length + 1
  let degrees := degreePatterns.flatMap fun pat =>
    (execAllSegs pat fuel none normalizedText.data).map fun seg => jsTrim ⟨seg⟩
  dedupKeepFirstAux [] degrees

/-- `determinePrimaryRole(roles, experienceByRole)`: the category with
maximum summed years (first wins on ties, `General` when the map is empty or
all-nonpositive), titled by the first detected role; without roles the fixed
`General`/`Professional` object, which has no `yearsInRole` field. -/
def determinePrimaryRole (roles : List RoleRecord)
    (experienceByRole : List (String × ExperienceEntry)) : PrimaryRole :=
  if roles.length = 0 then { type := "General", title := "Professional", yearsInRole := none }
  else
    let best := experienceByRole.foldl
      (fun acc e => if e.2.years > acc.1 then (e.2.years, e.1) else acc) ((0 : ℤ), "General")
    let recentTitle := match roles.head? with
      | some r => if r.title = "" then "Professional" else r.title
      | none => "Professional"
    { type := best.2, title := recentTitle, yearsInRole := some best.1 }

/-- One capitalized word of the keyword pattern: `[A-Z][a-zA-Z]+`
(case-sensitive: the pattern has no `i` flag). -/
def capWordM : Matcher :=
  mSeq (mCharP fun c => c.isUpper) (mPlusGreedy fun c => c.isAlpha)

/-- The keyword pattern `\b[A-Z][a-zA-Z]+(?:\s+[A-Z][a-zA-Z]+)*\b`. -/
def keywordM (fuel : Nat) : Matcher :=
  mSeq mBoundary
    (mSeq capWordM
      (mSeq (mStarG (mSeq (mPlusGreedy jsIsSpace) capWordM) fuel) mBoundary))

/-- `extractKeywords(text)`: runs of capitalized words, minus a stopword
list and short words, first 50 unique.  The `normalizedText` local of the
source is dead and is not modelled. -/
def extractKeywords (text : String) : List String :=
  let fuel := text.data.length + 1
  let capitalizedWords := (execAllSegs (keywordM fuel) fuel none text.data).map
    fun seg => (⟨seg⟩ : String)
  let commonWords : List String := ["the", "and", "for", "with", "from", "this", "that", "have", "been"]
  let filtered := capitalizedWords.filter fun word =>
    !(commonWords.contains (jsToLower word)) && word.data.length > 2
  (dedupKeepFirstAux [] filtered).take 50

/-! ## The extraction pipeline and the format switch -/

/-- `extractInformation(text)`: assemble the full candidate profile.  Pure
and total: no extraction step can fail. -/
def extractInformation (currentYear : ℤ) (text : String) : Profile :=
  let normalizedText := jsToLower text
  let roles := extractRoles currentYear text
  let experienceByRole := calculateExperienceByRole roles
  let skills := extractSkills normalizedText
  let seniorityLevel := determineSeniorityLevel normalizedText experienceByRole
  let education := extractEducation normalizedText
  let primaryRole := determinePrimaryRole roles experienceByRole
  { rawText := text, roles := roles, experienceByRole := experienceByRole,
    totalYearsExperience := calculateTotalExperience experienceByRole,
    skills := skills, seniorityLevel := seniorityLevel, education := education,
    primaryRole := primaryRole, keywords := extractKeywords text }

/-- The format switch of `parse(filePath)`.  Byte-level decoding of the three
supported formats is an external collaborator concern (spec section 1): the
model receives the lowercased extension and the already-decoded text.  The
`default` branch throws `Unsupported file format`; the supported branches
hand the decoded text to `extractInformation`. -/
def parseResume (currentYear : ℤ) (ext : String) (text : String) : Except String Profile :=
  if ext = ".pdf" ∨ ext = ".docx" ∨ ext = ".txt" then
    Except.ok (extractInformation currentYear text)
  else
    Except.error ("Unsupported file format: " ++ ext)

/-! ## Auxiliary definitions used by the theorem statements -/

/-- Index of the leftmost occurrence of `needle` in `hay` (used to talk about
order of appearance in the subject text). -/
def firstIndexOfSub (needle : List Char) : List Char → Option Nat
  | [] => if needle.isEmpty then some 0 else none
  | c :: t =>
    if needle.isPrefixOf (c :: t) then some 0
    else (firstIndexOfSub needle t).map (· + 1)

/-- A career-pivot candidate: eight years of total experience, two of them in
Product (the worked example of the specification). -/
def pivotExampleProfile : Profile :=
  { rawText := "",
    roles := [{ title := "Software Engineer", years := some 6, company := none, rawLine := none }],
    experienceByRole :=
      [ ("Engineering", ⟨6, ["Software Engineer"]⟩), ("Product", ⟨2, ["Product Manager"]⟩) ],
    totalYearsExperience := 8,
    skills := ⟨["Python"], [], []⟩,
    seniorityLevel := "senior",
    education := [],
    primaryRole := ⟨"Engineering", "Software Engineer", some 6⟩,
    keywords := [] }

/-- A designer profile whose primary role is unrelated to software
engineering (the worked example of the role-score specification). -/
def uxExampleProfile : Profile :=
  { rawText := "",
    roles := [{ title := "UX Designer", years := some 4, company := none, rawLine := none }],
    experienceByRole := [("Design", ⟨4, ["UX Designer"]⟩)],
    totalYearsExperience := 4,
    skills := ⟨["Figma"], [], []⟩,
    seniorityLevel := "mid",
    education := [],
    primaryRole := ⟨"Design", "UX Designer", some 4⟩,
    keywords := [] }

/-- A frontend-engineer profile (the worked example of the synonym-table
role score). -/
def frontendExampleProfile : Profile :=
  { rawText := "",
    roles := [{ title := "Frontend Engineer", years := some 3, company := none, rawLine := none }],
    experienceByRole := [("Engineering", ⟨3, ["Frontend Engineer"]⟩)],
    totalYearsExperience := 3,
    skills := ⟨["React"], [], []⟩,
    seniorityLevel := "mid",
    education := [],
    primaryRole := ⟨"Engineering", "Frontend Engineer", some 3⟩,
    keywords := [] }

/-! # Rounding lemmas -/

theorem jsRound_mono {a b : ℚ} (h : a ≤ b) : jsRound a ≤ jsRound b :=
  Int.floor_le_floor (by linarith)

theorem jsRound_hundred : jsRound (100 : ℚ) = 100 := by norm_num [jsRound]

theorem jsRound_min100 (x : ℚ) : jsRound (min 100 x) = min 100 (jsRound x) := by
  rcases le_total x 100 with h | h
  · rw [min_eq_right h, min_eq_right ((jsRound_mono h).trans_eq jsRound_hundred)]
  · rw [min_eq_left h, jsRound_hundred, min_eq_left (jsRound_hundred ▸ jsRound_mono h)]

/-! # C6: the role-score ladder -/

/-- C6: for every profile and posting the role score is one of exactly
100, 85, 70, 50, 20 and is never 0; a "Frontend Developer" posting scores 100
against any profile whose primary role title is "Frontend Engineer" (both
resolve into the same synonym-table entry); and a "Software Engineer" posting
scores 20 ≤ 50 against `uxExampleProfile`, whose unrelated primary role
"UX Designer" shares no family keyword with the job title. -/
theorem C6_role_score_ladder :
    (∀ (resumeData : Profile) (job : Job),
      calculateRoleScore resumeData job ∈ ([100, 85, 70, 50, 20] : List ℤ) ∧
      calculateRoleScore resumeData job ≠ 0) ∧
    (∀ (resumeData : Profile) (job : Job),
      resumeData.primaryRole.title = "Frontend Engineer" →
      job.title = "Frontend Developer" →
      calculateRoleScore resumeData job = 100) ∧
    calculateRoleScore uxExampleProfile { title := "Software Engineer", description := none } = 20 ∧
    calculateRoleScore uxExampleProfile { title := "Software Engineer", description := none } ≤ 50 := by
  refine ⟨fun resumeData job => ?_, fun resumeData job hp hj => ?_, by decide, by decide⟩
  · simp only [calculateRoleScore]
    split_ifs <;> simp
  · have hc : titlesMatch (jsToLower "Frontend Developer") (jsToLower "Frontend Engineer") = true := by
      decide
    simp [calculateRoleScore, hp, hj, hc]

/-- Witness for C6: the synonym-entry conjunct applied to the concrete
frontend profile. -/
theorem C6_role_score_ladder_witness :
    calculateRoleScore frontendExampleProfile { title := "Frontend Developer", description := none } = 100 :=
  C6_role_score_ladder.2.1 frontendExampleProfile
    { title := "Frontend Developer", description := none } rfl rfl

/-! # C1: the career-pivot override -/

/-- C1: whenever `totalYearsExperience > 5` and the relevant (category)
experience for the posting is `< 3`, the experience score is at most 40 for
postings whose extracted level is senior/lead/manager and at least 70 for
postings whose extracted level is junior/entry/mid; in particular the
eight-year candidate with two Product years scores 25 ≤ 40 on
"Senior Product Manager" (level senior) and 100 ≥ 70 on "Product Manager"
(level mid). -/
theorem C1_career_pivot_override :
    (∀ (resumeData : Profile) (job : Job),
      5 < resumeData.totalYearsExperience →
      getRelevantExperience resumeData job < 3 →
      (((extractJobLevel (jsToLower job.title) = "senior" ∨
          extractJobLevel (jsToLower job.title) = "lead" ∨
          extractJobLevel (jsToLower job.title) = "manager") →
        calculateExperienceScore resumeData job ≤ 40) ∧
       ((extractJobLevel (jsToLower job.title) = "junior" ∨
          extractJobLevel (jsToLower job.title) = "entry" ∨
          extractJobLevel (jsToLower job.title) = "mid") →
        70 ≤ calculateExperienceScore resumeData job))) ∧
    calculateExperienceScore pivotExampleProfile { title := "Senior Product Manager", description := none } ≤ 40 ∧
    extractJobLevel (jsToLower "Senior Product Manager") = "senior" ∧
    70 ≤ calculateExperienceScore pivotExampleProfile { title := "Product Manager", description := none } ∧
    extractJobLevel (jsToLower "Product Manager") = "mid" := by
  refine ⟨fun resumeData job h5 h3 => ⟨fun hlvl => ?_, fun hlvl => ?_⟩,
    by decide, by decide, by decide, by decide⟩
  · simp only [calculateExperienceScore]
    rw [if_pos ⟨h5, h3⟩]
    rcases hlvl with h | h | h <;> rw [h] <;> rw [if_pos (by decide)] <;>
      exact min_le_right _ _
  · simp only [calculateExperienceScore]
    rw [if_pos ⟨h5, h3⟩]
    rcases hlvl with h | h | h <;> rw [h] <;> rw [if_neg (by decide), if_pos (by decide)] <;>
      exact le_max_right _ _

/-- Witness for C1: the override applied to the concrete pivot profile and
the two concrete postings. -/
theorem C1_career_pivot_override_witness :
    calculateExperienceScore pivotExampleProfile { title := "Senior Product Manager", description := none } ≤ 40 ∧
    70 ≤ calculateExperienceScore pivotExampleProfile { title := "Product Manager", description := none } := by
  constructor
  · exact (C1_career_pivot_override.1 pivotExampleProfile
      { title := "Senior Product Manager", description := none } (by decide) (by decide)).1
      (Or.inl (by decide))
  · exact (C1_career_pivot_override.1 pivotExampleProfile
      { title := "Product Manager", description := none } (by decide) (by decide)).2
      (Or.inr (Or.inr (by decide)))

/-! # C7: the content score -/

/-- C7: with zero reference-vocabulary hits in title + description the
content score is exactly 75 when the candidate has at least one technical
skill and exactly 50 otherwise; with a positive reference count it equals
`min(100, round(120 × matched / referenceCount))`. -/
theorem C7_content_score (resumeData : Profile) (job : Job) :
    ((technicalTerms.filter fun term =>
        jsIncludes (jsToLower job.title ++ " " ++ jsToLower (job.description.getD "")) term).length = 0 →
      calculateContentScore resumeData job =
        if 0 < resumeData.skills.technical.length then 75 else 50) ∧
    (0 < (technicalTerms.filter fun term =>
        jsIncludes (jsToLower job.title ++ " " ++ jsToLower (job.description.getD "")) term).length →
      calculateContentScore resumeData job =
        min 100 (jsRound (120 *
          (((resumeData.skills.technical.map jsToLower).filter fun skill =>
            jsIncludes (jsToLower job.title ++ " " ++ jsToLower (job.description.getD "")) skill).length : ℚ) /
          ((technicalTerms.filter fun term =>
            jsIncludes (jsToLower job.title ++ " " ++ jsToLower (job.description.getD "")) term).length : ℚ)))) := by
  constructor
  · intro h0
    simp only [calculateContentScore]
    rw [if_pos h0]
    simp [List.length_map, gt_iff_lt]
  · intro hpos
    have hne : (technicalTerms.filter fun term =>
        jsIncludes (jsToLower job.title ++ " " ++ jsToLower (job.description.getD "")) term).length ≠ 0 := by
      omega
    simp only [calculateContentScore]
    rw [if_neg hne]
    rw [Nat.max_eq_left hpos]
    rw [show (((resumeData.skills.technical.map jsToLower).filter fun skill =>
            jsIncludes (jsToLower job.title ++ " " ++ jsToLower (job.description.getD "")) skill).length : ℚ) /
          ((technicalTerms.filter fun term =>
            jsIncludes (jsToLower job.title ++ " " ++ jsToLower (job.description.getD "")) term).length : ℚ) * 120 =
        120 *
          (((resumeData.skills.technical.map jsToLower).filter fun skill =>
            jsIncludes (jsToLower job.title ++ " " ++ jsToLower (job.description.getD "")) skill).length : ℚ) /
          ((technicalTerms.filter fun term =>
            jsIncludes (jsToLower job.title ++ " " ++ jsToLower (job.description.getD "")) term).length : ℚ) from by ring]
    exact jsRound_min100 _

/-- Witness for C7: a posting with no reference-vocabulary hits scores 75
for a candidate with one technical skill. -/
theorem C7_content_score_witness :
    calculateContentScore pivotExampleProfile { title := "Gardener", description := none } = 75 := by
  have h := (C7_content_score pivotExampleProfile { title := "Gardener", description := none }).1
    (by decide)
  simpa using h

/-! # C5: categorization windows -/

/-- C5: a scored job is in `recommended` iff it is in `all` with confidence
in [90, 95], in `worthExploring` iff it is in `all` with confidence in
[70, 90); the two lists are disjoint and both are contained in `all`. -/
theorem C5_categorization (resumeData : Profile) (jobs : List Job) (j : ScoredJob) :
    (j ∈ (matchJobs resumeData jobs).recommended ↔
      j ∈ (matchJobs resumeData jobs).all ∧ 90 ≤ j.confidence ∧ j.confidence ≤ 95) ∧
    (j ∈ (matchJobs resumeData jobs).worthExploring ↔
      j ∈ (matchJobs resumeData jobs).all ∧ 70 ≤ j.confidence ∧ j.confidence < 90) ∧
    ¬(j ∈ (matchJobs resumeData jobs).recommended ∧
      j ∈ (matchJobs resumeData jobs).worthExploring) ∧
    (j ∈ (matchJobs resumeData jobs).recommended → j ∈ (matchJobs resumeData jobs).all) ∧
    (j ∈ (matchJobs resumeData jobs).worthExploring → j ∈ (matchJobs resumeData jobs).all) := by
  have hrec : j ∈ (matchJobs resumeData jobs).recommended ↔
      j ∈ (matchJobs resumeData jobs).all ∧ 90 ≤ j.confidence ∧ j.confidence ≤ 95 := by
    simp [matchJobs, List.mem_filter]
  have hwe : j ∈ (matchJobs resumeData jobs).worthExploring ↔
      j ∈ (matchJobs resumeData jobs).all ∧ 70 ≤ j.confidence ∧ j.confidence < 90 := by
    simp [matchJobs, List.mem_filter]
  refine ⟨hrec, hwe, ?_, fun h => (hrec.mp h).1, fun h => (hwe.mp h).1⟩
  rintro ⟨h1, h2⟩
  have w1 := (hrec.mp h1).2.1
  have w2 := (hwe.mp h2).2.2
  omega

/-! # C2: the sorted `all` view — helper lemmas for the stable sort -/

theorem mem_insertByScore {z x : ScoredJob} {l : List ScoredJob} :
    z ∈ insertByScore x l ↔ z = x ∨ z ∈ l := by
  induction l with
  | nil => simp [insertByScore]
  | cons y ys ih =>
    simp only [insertByScore]
    split_ifs with h
    · simp [List.mem_cons]
    · simp only [List.mem_cons, ih]
      tauto

theorem length_insertByScore (x : ScoredJob) (l : List ScoredJob) :
    (insertByScore x l).length = l.length + 1 := by
  induction l with
  | nil => rfl
  | cons y ys ih =>
    simp only [insertByScore]
    split_ifs with h
    · simp
    · simp [ih]

theorem sorted_insertByScore {x : ScoredJob} {l : List ScoredJob}
    (h : l.Pairwise fun a b => b.matchScore ≤ a.matchScore) :
    (insertByScore x l).Pairwise fun a b => b.matchScore ≤ a.matchScore := by
  induction l with
  | nil => simp [insertByScore]
  | cons y ys ih =>
    rcases List.pairwise_cons.mp h with ⟨hy, hys⟩
    simp only [insertByScore]
    split_ifs with hle
    · refine List.Pairwise.cons ?_ h
      intro z hz
      rcases List.mem_cons.mp hz with rfl | hz
      · exact hle
      · exact (hy z hz).trans hle
    · refine List.Pairwise.cons ?_ (ih hys)
      intro z hz
      rcases mem_insertByScore.mp hz with rfl | hz
      · exact (lt_of_not_le hle).le
      · exact hy z hz

theorem filter_insertByScore (x : ScoredJob) (l : List ScoredJob) (q : ℚ) :
    (insertByScore x l).filter (fun e => decide (e.matchScore = q)) =
      if x.matchScore = q
      then x :: l.filter (fun e => decide (e.matchScore = q))
      else l.filter (fun e => decide (e.matchScore = q)) := by
  induction l with
  | nil =>
    by_cases hx : x.matchScore = q <;> simp [insertByScore, hx]
  | cons y ys ih =>
    simp only [insertByScore]
    by_cases hle : y.matchScore ≤ x.matchScore
    · rw [if_pos hle]
      by_cases hx : x.matchScore = q <;> by_cases hy : y.matchScore = q <;>
        simp [List.filter_cons, hx, hy]
    · rw [if_neg hle]
      by_cases hx : x.matchScore = q
      · have hy : ¬ y.matchScore = q := fun hy => hle (le_of_eq (hy.trans hx.symm))
        simp [List.filter_cons, hx, hy, ih]
      · by_cases hy : y.matchScore = q <;> simp [List.filter_cons, hx, hy, ih]

theorem length_sortByScoreDesc (l : List ScoredJob) :
    (sortByScoreDesc l).length = l.length := by
  induction l with
  | nil => rfl
  | cons x xs ih => simp [sortByScoreDesc, length_insertByScore, ih]

theorem sorted_sortByScoreDesc (l : List ScoredJob) :
    (sortByScoreDesc l).Pairwise fun a b => b.matchScore ≤ a.matchScore := by
  induction l with
  | nil => simp [sortByScoreDesc]
  | cons x xs ih => exact sorted_insertByScore ih

theorem filter_sortByScoreDesc (l : List ScoredJob) (q : ℚ) :
    (sortByScoreDesc l).filter (fun e => decide (e.matchScore = q)) =
      l.filter (fun e => decide (e.matchScore = q)) := by
  induction l with
  | nil => rfl
  | cons a l ih =>
    simp only [sortByScoreDesc]
    rw [filter_insertByScore]
    by_cases ha : a.matchScore = q <;> simp [List.filter_cons, ha, ih]

theorem mem_sortByScoreDesc {z : ScoredJob} {l : List ScoredJob} :
    z ∈ sortByScoreDesc l ↔ z ∈ l := by
  induction l with
  | nil => simp [sortByScoreDesc]
  | cons x xs ih => simp [sortByScoreDesc, mem_insertByScore, ih]

theorem perm_insertByScore (x : ScoredJob) (l : List ScoredJob) :
    (insertByScore x l).Perm (x :: l) := by
  induction l with
  | nil => exact List.Perm.refl _
  | cons y ys ih =>
    simp only [insertByScore]
    split_ifs with hle
    · exact List.Perm.refl _
    · exact (List.Perm.cons y ih).trans (List.Perm.swap x y ys)

theorem perm_sortByScoreDesc (l : List ScoredJob) : (sortByScoreDesc l).Perm l := by
  induction l with
  | nil => exact List.Perm.refl _
  | cons x xs ih =>
    exact (perm_insertByScore x (sortByScoreDesc xs)).trans (List.Perm.cons x ih)

/-- C2: `all` has one entry per input posting, is sorted by total score
descending, and the sort is stable — for every score value, the entries
carrying it appear in `all` exactly as they appear in the scored input
sequence; moreover every entry's sort key `matchScore` is its `scores.total`. -/
theorem C2_all_sorted_stable (resumeData : Profile) (jobs : List Job) :
    (matchJobs resumeData jobs).all.length = jobs.length ∧
    (matchJobs resumeData jobs).all.Pairwise (fun a b => b.matchScore ≤ a.matchScore) ∧
    (∀ q : ℚ, (matchJobs resumeData jobs).all.filter (fun e => decide (e.matchScore = q)) =
      (jobs.map (scoreJob resumeData)).filter (fun e => decide (e.matchScore = q))) ∧
    (matchJobs resumeData jobs).all.Perm (jobs.map (scoreJob resumeData)) ∧
    (∀ e ∈ (matchJobs resumeData jobs).all, e.matchScore = e.scores.total) := by
  refine ⟨?_, ?_, fun q => ?_, ?_, fun e he => ?_⟩
  · simp [matchJobs, length_sortByScoreDesc]
  · exact sorted_sortByScoreDesc _
  · exact filter_sortByScoreDesc _ q
  · exact perm_sortByScoreDesc _
  · have : e ∈ jobs.map (scoreJob resumeData) := by
      have := mem_sortByScoreDesc.mp he
      simpa [matchJobs] using this
    rcases List.mem_map.mp this with ⟨job, _, rfl⟩
    rfl

/-! # C4: the confidence remap — helper lemmas -/

theorem jsRound_int (n : ℤ) : jsRound (n : ℚ) = n := by
  unfold jsRound
  rw [Int.floor_int_add]
  norm_num

theorem jsRound_le_int {q : ℚ} {n : ℤ} (h : q ≤ (n : ℚ)) : jsRound q ≤ n :=
  (jsRound_mono h).trans_eq (jsRound_int n)

theorem int_le_jsRound {q : ℚ} {n : ℤ} (h : (n : ℚ) ≤ q) : n ≤ jsRound q :=
  (jsRound_int n) ▸ jsRound_mono h

theorem confidenceBottomBand_le_50 {t : ℚ} (h : t ≤ 40) : confidenceBottomBand t ≤ 50 :=
  jsRound_le_int (by push_cast; linarith)

theorem fifty_le_confidenceLowBand {t : ℚ} (h : 40 ≤ t) : 50 ≤ confidenceLowBand t :=
  int_le_jsRound (by push_cast; linarith)

theorem confidenceLowBand_le_69 {t : ℚ} (h : t ≤ 60) : confidenceLowBand t ≤ 69 :=
  jsRound_le_int (by push_cast; linarith)

theorem seventy_le_confidenceMidBand {t : ℚ} (h : 60 ≤ t) : 70 ≤ confidenceMidBand t :=
  int_le_jsRound (by push_cast; linarith)

theorem confidenceMidBand_le_89 {t : ℚ} (h : t ≤ 85) : confidenceMidBand t ≤ 89 :=
  jsRound_le_int (by push_cast; linarith)

theorem ninety_le_confidenceHighBand {t : ℚ} (h : 85 ≤ t) : 90 ≤ confidenceHighBand t :=
  le_min (by norm_num) (int_le_jsRound (by push_cast; linarith))

theorem confidenceBottomBand_mono {t1 t2 : ℚ} (h : t1 ≤ t2) :
    confidenceBottomBand t1 ≤ confidenceBottomBand t2 :=
  jsRound_mono (by linarith)

theorem confidenceLowBand_mono {t1 t2 : ℚ} (h : t1 ≤ t2) :
    confidenceLowBand t1 ≤ confidenceLowBand t2 :=
  jsRound_mono (by linarith)

theorem confidenceMidBand_mono {t1 t2 : ℚ} (h : t1 ≤ t2) :
    confidenceMidBand t1 ≤ confidenceMidBand t2 :=
  jsRound_mono (by linarith)

theorem confidenceHighBand_mono {t1 t2 : ℚ} (h : t1 ≤ t2) :
    confidenceHighBand t1 ≤ confidenceHighBand t2 :=
  min_le_min le_rfl (jsRound_mono (by linarith))

theorem conf_eq_high {s : Scores} (h : 85 ≤ s.total) :
    calculateConfidence s = confidenceHighBand s.total := by
  simp only [calculateConfidence]
  rw [if_pos h]

theorem conf_eq_mid {s : Scores} (h1 : ¬ 85 ≤ s.total) (h2 : 60 ≤ s.total) :
    calculateConfidence s = confidenceMidBand s.total := by
  simp only [calculateConfidence]
  rw [if_neg h1, if_pos h2]

theorem conf_eq_low {s : Scores} (h1 : ¬ 85 ≤ s.total) (h2 : ¬ 60 ≤ s.total)
    (h3 : 40 ≤ s.total) : calculateConfidence s = confidenceLowBand s.total := by
  simp only [calculateConfidence]
  rw [if_neg h1, if_neg h2, if_pos h3]

theorem conf_eq_bottom {s : Scores} (h1 : ¬ 85 ≤ s.total) (h2 : ¬ 60 ≤ s.total)
    (h3 : ¬ 40 ≤ s.total) : calculateConfidence s = confidenceBottomBand s.total := by
  simp only [calculateConfidence]
  rw [if_neg h1, if_neg h2, if_neg h3]

/-- C4: the confidence mapping is monotonically non-decreasing in the total
on [0, 100], and at each band boundary the two adjacent band formulae agree
up to rounding tolerance (their rounded values differ by at most 1: exact
agreement at 40, a jump of exactly one point at 60 and at 85). -/
theorem C4_confidence_monotone_continuous :
    (∀ s1 s2 : Scores, 0 ≤ s1.total → s1.total ≤ s2.total → s2.total ≤ 100 →
      calculateConfidence s1 ≤ calculateConfidence s2) ∧
    |confidenceLowBand 40 - confidenceBottomBand 40| ≤ 1 ∧
    |confidenceMidBand 60 - confidenceLowBand 60| ≤ 1 ∧
    |confidenceHighBand 85 - confidenceMidBand 85| ≤ 1 := by
  refine ⟨fun s1 s2 _ h12 _ => ?_, ?_, ?_, ?_⟩
  · rcases le_or_lt 85 s1.total with a1 | a1
    · rw [conf_eq_high a1, conf_eq_high (a1.trans h12)]
      exact confidenceHighBand_mono h12
    · rcases le_or_lt 60 s1.total with b1 | b1
      · rw [conf_eq_mid (not_le.mpr a1) b1]
        rcases le_or_lt 85 s2.total with a2 | a2
        · rw [conf_eq_high a2]
          calc confidenceMidBand s1.total ≤ 89 := confidenceMidBand_le_89 a1.le
            _ ≤ 90 := by norm_num
            _ ≤ confidenceHighBand s2.total := ninety_le_confidenceHighBand a2
        · rw [conf_eq_mid (not_le.mpr a2) (b1.trans h12)]
          exact confidenceMidBand_mono h12
      · rcases le_or_lt 40 s1.total with c1 | c1
        · rw [conf_eq_low (not_le.mpr a1) (not_le.mpr b1) c1]
          rcases le_or_lt 85 s2.total with a2 | a2
          · rw [conf_eq_high a2]
            calc confidenceLowBand s1.total ≤ 69 := confidenceLowBand_le_69 b1.le
              _ ≤ 90 := by norm_num
              _ ≤ confidenceHighBand s2.total := ninety_le_confidenceHighBand a2
          · rcases le_or_lt 60 s2.total with b2 | b2
            · rw [conf_eq_mid (not_le.mpr a2) b2]
              calc confidenceLowBand s1.total ≤ 69 := confidenceLowBand_le_69 b1.le
                _ ≤ 70 := by norm_num
                _ ≤ confidenceMidBand s2.total := seventy_le_confidenceMidBand b2
            · rw [conf_eq_low (not_le.mpr a2) (not_le.mpr b2) (c1.trans h12)]
              exact confidenceLowBand_mono h12
        · rw [conf_eq_bottom (not_le.mpr a1) (not_le.mpr b1) (not_le.mpr c1)]
          rcases le_or_lt 85 s2.total with a2 | a2
          · rw [conf_eq_high a2]
            calc confidenceBottomBand s1.total ≤ 50 := confidenceBottomBand_le_50 c1.le
              _ ≤ 90 := by norm_num
              _ ≤ confidenceHighBand s2.total := ninety_le_confidenceHighBand a2
          · rcases le_or_lt 60 s2.total with b2 | b2
            · rw [conf_eq_mid (not_le.mpr a2) b2]
              calc confidenceBottomBand s1.total ≤ 50 := confidenceBottomBand_le_50 c1.le
                _ ≤ 70 := by norm_num
                _ ≤ confidenceMidBand s2.total := seventy_le_confidenceMidBand b2
            · rcases le_or_lt 40 s2.total with c2 | c2
              · rw [conf_eq_low (not_le.mpr a2) (not_le.mpr b2) c2]
                calc confidenceBottomBand s1.total ≤ 50 := confidenceBottomBand_le_50 c1.le
                  _ ≤ confidenceLowBand s2.total := fifty_le_confidenceLowBand c2
              · rw [conf_eq_bottom (not_le.mpr a2) (not_le.mpr b2) (not_le.mpr c2)]
                exact confidenceBottomBand_mono h12
  · norm_num [confidenceLowBand, confidenceBottomBand, jsRound]
  · norm_num [confidenceMidBand, confidenceLowBand, jsRound]
  · norm_num [confidenceHighBand, confidenceMidBand, jsRound]

/-- Witness for C4: monotonicity applied at totals 50 and 60. -/
theorem C4_confidence_monotone_continuous_witness :
    calculateConfidence { role := 0, experience := 0, content := 0, total := 50 } ≤
      calculateConfidence { role := 0, experience := 0, content := 0, total := 60 } :=
  C4_confidence_monotone_continuous.1
    { role := 0, experience := 0, content := 0, total := 50 }
    { role := 0, experience := 0, content := 0, total := 60 }
    (by norm_num) (by norm_num) (by norm_num)

/-! # Generic fold-invariant lemma -/

theorem foldl_preserve {α : Type} {β : Type} (P : α → Prop) (step : α → β → α) (l : List β)
    (hstep : ∀ a, P a → ∀ b ∈ l, P (step a b)) :
    ∀ a, P a → P (l.foldl step a) := by
  induction l with
  | nil => intro a ha; exact ha
  | cons b bs ih =>
    intro a ha
    exact ih (fun a ha b hb => hstep a ha b (List.mem_cons_of_mem _ hb)) _
      (hstep a ha b (List.mem_cons_self _ _))

/-! # C3: bounds on the total experience -/

theorem updateEntry_years_nonneg (m : List (String × ExperienceEntry)) (type : String)
    (r : RoleRecord) (hm : ∀ p ∈ m, 0 ≤ p.2.years) (hr : 0 ≤ truthyYears r.years) :
    ∀ p ∈ updateEntry m type r, 0 ≤ p.2.years := by
  induction m with
  | nil =>
    intro p hp
    simp only [updateEntry, List.mem_singleton] at hp
    subst hp
    simpa using hr
  | cons kv rest ih =>
    obtain ⟨k, v⟩ := kv
    intro p hp
    simp only [updateEntry] at hp
    split_ifs at hp with hk
    · rcases List.mem_cons.mp hp with rfl | hp
      · have h0 := hm (k, v) (List.mem_cons_self _ _)
        simpa using add_nonneg h0 hr
      · exact hm p (List.mem_cons_of_mem _ hp)
    · rcases List.mem_cons.mp hp with rfl | hp
      · exact hm (k, v) (List.mem_cons_self _ _)
      · exact ih (fun q hq => hm q (List.mem_cons_of_mem _ hq)) p hp

theorem calculateExperienceByRole_years_nonneg (roles : List RoleRecord)
    (h : ∀ r ∈ roles, 0 ≤ truthyYears r.years) :
    ∀ p ∈ calculateExperienceByRole roles, 0 ≤ p.2.years := by
  have hfold : ∀ p ∈ roles.foldl (fun m role =>
      roleTypes.foldl (fun m tk =>
        if tk.2.any fun kw => jsIncludes (jsToLower role.title) kw then updateEntry m tk.1 role
        else m) m) [], 0 ≤ p.2.years := by
    refine foldl_preserve (fun (m : List (String × ExperienceEntry)) => ∀ p ∈ m, 0 ≤ p.2.years) _ roles ?_ [] ?_
    · intro m hm role hrole
      refine foldl_preserve (fun (m : List (String × ExperienceEntry)) => ∀ p ∈ m, 0 ≤ p.2.years) _ roleTypes ?_ m hm
      intro m hm tk _
      split_ifs with hc
      · exact updateEntry_years_nonneg m tk.1 role hm (h role hrole)
      · exact hm
    · intro p hp
      cases hp
  intro p hp
  unfold calculateExperienceByRole at hp
  rcases List.mem_map.mp hp with ⟨q, hq, rfl⟩
  split_ifs with hcond
  · simp
  · exact hfold q hq

theorem foldl_add_years_nonneg (l : List (String × ExperienceEntry))
    (hl : ∀ p ∈ l, 0 ≤ p.2.years) :
    ∀ acc : ℤ, 0 ≤ acc → 0 ≤ l.foldl (fun total e => total + e.2.years) acc := by
  induction l with
  | nil => intro acc h; exact h
  | cons p ps ih =>
    intro acc h
    exact ih (fun q hq => hl q (List.mem_cons_of_mem _ hq)) _
      (add_nonneg h (hl p (List.mem_cons_self _ _)))

/-- C3 counterexample: the claim fails as stated — a role line with a
reversed year range ("2023 - 2019") produces a negative year span, which
propagates to a negative `totalYearsExperience` (the code caps at 30 but
never floors at 0). -/
theorem C3_total_experience_counterexample :
    (extractInformation 2026 "software engineer 2023 - 2019").totalYearsExperience = -4 ∧
    (extractInformation 2026 "software engineer 2023 - 2019").totalYearsExperience < 0 := by
  have h : (extractInformation 2026 "software engineer 2023 - 2019").totalYearsExperience = -4 := by
    decide
  exact ⟨h, by rw [h]; norm_num⟩

/-- C3 amended: `totalYearsExperience` is always at most 30, and it is
nonnegative whenever every extracted role's (truthy) year span is
nonnegative — the lower bound of the claimed interval [0, 30] only holds
under that proviso, which a reversed year range violates. -/
theorem C3_total_experience_amended (currentYear : ℤ) (text : String) :
    (extractInformation currentYear text).totalYearsExperience ≤ 30 ∧
    ((∀ r ∈ extractRoles currentYear text, 0 ≤ truthyYears r.years) →
      0 ≤ (extractInformation currentYear text).totalYearsExperience) := by
  constructor
  · show calculateTotalExperience (calculateExperienceByRole (extractRoles currentYear text)) ≤ 30
    unfold calculateTotalExperience
    exact min_le_right _ _
  · intro hroles
    have hmap := calculateExperienceByRole_years_nonneg (extractRoles currentYear text) hroles
    show 0 ≤ calculateTotalExperience (calculateExperienceByRole (extractRoles currentYear text))
    unfold calculateTotalExperience
    exact le_min (foldl_add_years_nonneg _ hmap 0 le_rfl) (by norm_num)

/-- Witness for C3 (amended): a resume without explicit year spans has a
total in [0, 30]. -/
theorem C3_total_experience_amended_witness :
    0 ≤ (extractInformation 2026 "consultant").totalYearsExperience ∧
    (extractInformation 2026 "consultant").totalYearsExperience ≤ 30 :=
  ⟨(C3_total_experience_amended 2026 "consultant").2 (by decide),
   (C3_total_experience_amended 2026 "consultant").1⟩

/-! # C9: de-duplication of extracted roles -/

theorem rolesDedupHas_false_titleNe {acc : List RoleRecord} {t : String}
    (hd : rolesDedupHas acc t = false) :
    ∀ a ∈ acc, jsToLower a.title ≠ jsToLower t := by
  intro a ha heq
  have htrue : rolesDedupHas acc t = true := by
    unfold rolesDedupHas
    refine List.any_eq_true.mpr ⟨a, ha, ?_⟩
    rw [heq]
    exact beq_self_eq_true _
  rw [htrue] at hd
  cases hd

theorem pairwise_titleNe_push (acc : List RoleRecord) (r : RoleRecord)
    (h : acc.Pairwise fun r1 r2 => jsToLower r1.title ≠ jsToLower r2.title) :
    (if rolesDedupHas acc r.title then acc else acc ++ [r]).Pairwise
      fun r1 r2 => jsToLower r1.title ≠ jsToLower r2.title := by
  split_ifs with hd
  · exact h
  · have hd' : rolesDedupHas acc r.title = false := by
      revert hd
      cases rolesDedupHas acc r.title <;> simp
    refine List.pairwise_append.mpr ⟨h, List.pairwise_singleton _ _, ?_⟩
    intro a ha b hb
    rcases List.mem_singleton.mp hb with rfl
    exact rolesDedupHas_false_titleNe hd' a ha

/-- C9 amended: the extracted roles never contain two records with
case-insensitively equal titles (each of the three detection passes pushes a
record only when no already-found record carries the same lowercased title,
so the first occurrence in detection order is retained). -/
theorem C9_roles_dedup_amended (currentYear : ℤ) (text : String) :
    (extractRoles currentYear text).Pairwise
      fun r1 r2 => jsToLower r1.title ≠ jsToLower r2.title := by
  simp only [extractRoles]
  refine foldl_preserve
    (fun (m : List RoleRecord) => m.Pairwise fun r1 r2 => jsToLower r1.title ≠ jsToLower r2.title)
    _ _ ?_ _ ?_
  · intro acc hacc tc _
    exact pairwise_titleNe_push acc
      { title := tc.1, years := none, company := some tc.2, rawLine := none } hacc
  · refine foldl_preserve _ _ _ ?_ _ ?_
    · intro acc hacc tc _
      exact pairwise_titleNe_push acc
        { title := tc.1, years := none, company := some tc.2, rawLine := none } hacc
    · refine foldl_preserve _ _ _ ?_ _ List.Pairwise.nil
      intro acc hacc line _
      refine foldl_preserve _ _ _ ?_ _ hacc
      intro acc hacc role _
      split_ifs with hocc hdup
      · exact hacc
      · have := pairwise_titleNe_push acc (parseRoleLine currentYear ⟨line⟩ role) hacc
        rw [if_neg hdup] at this
        exact this
      · exact hacc

/-- C9 counterexample: the retained order is detection order, not text
order — in "product manager software engineer" the lexicon pass finds
"software engineer" (earlier in the lexicon) before "product manager", so
the output order inverts the order of appearance in the text (first
occurrence indices 16 and 0 respectively). -/
theorem C9_roles_order_counterexample :
    ((extractRoles 2026 "product manager software engineer").map fun r => r.title) =
      ["Software Engineer", "Product Manager"] ∧
    firstIndexOfSub "product manager".data "product manager software engineer".data = some 0 ∧
    firstIndexOfSub "software engineer".data "product manager software engineer".data = some 16 ∧
    ¬ (((extractRoles 2026 "product manager software engineer").map fun r =>
        (firstIndexOfSub (jsToLower r.title).data
          "product manager software engineer".data).getD 0).Pairwise (· ≤ ·)) := by
  refine ⟨by decide, by decide, by decide, by decide⟩

/-! # C8: the parse contract -/

/-- C8 amended: the format switch fails exactly on an unsupported extension;
for every supported format the (already-decoded) text — including the empty
string — yields a complete profile via the total function
`extractInformation`, and no extraction sub-step can fail. -/
theorem C8_parse_amended (currentYear : ℤ) (ext text : String) :
    ((ext = ".pdf" ∨ ext = ".docx" ∨ ext = ".txt") →
      parseResume currentYear ext text = Except.ok (extractInformation currentYear text)) ∧
    (¬(ext = ".pdf" ∨ ext = ".docx" ∨ ext = ".txt") →
      parseResume currentYear ext text = Except.error ("Unsupported file format: " ++ ext)) := by
  constructor
  · intro h
    unfold parseResume
    rw [if_pos h]
  · intro h
    unfold parseResume
    rw [if_neg h]

/-- C8 counterexample: empty input does not raise a parse error — the claim
that extraction "fails exactly when the input is empty or the format was
unsupported" is refuted on its empty-input half: a supported format with
empty text returns a complete default-valued profile. -/
theorem C8_parse_counterexample :
    parseResume 2026 ".txt" "" = Except.ok (extractInformation 2026 "") := by
  unfold parseResume
  rw [if_pos (Or.inr (Or.inr rfl))]

/-- Witness for C8 (amended): one supported and one unsupported extension. -/
theorem C8_parse_amended_witness :
    parseResume 2026 ".txt" "resume text" = Except.ok (extractInformation 2026 "resume text") ∧
    parseResume 2026 ".md" "resume text" = Except.error "Unsupported file format: .md" := by
  constructor
  · exact (C8_parse_amended 2026 ".txt" "resume text").1 (Or.inr (Or.inr rfl))
  · exact (C8_parse_amended 2026 ".md" "resume text").2 (by decide)

/-! # C10: primary-role defaults — helper lemmas -/

theorem mem_mSeq {a b : Matcher} {prev : Option Char} {cs : List Char} {n : Nat} :
    n ∈ mSeq a b prev cs ↔
      ∃ n1 n2, n1 ∈ a prev cs ∧ n2 ∈ b (lastOf prev cs n1) (cs.drop n1) ∧ n = n1 + n2 := by
  unfold mSeq
  simp only [List.mem_flatMap, List.mem_map]
  constructor
  · rintro ⟨n1, h1, n2, h2, rfl⟩
    exact ⟨n1, n2, h1, h2, rfl⟩
  · rintro ⟨n1, n2, h1, h2, rfl⟩
    exact ⟨n1, h1, n2, h2, rfl⟩

theorem mem_mCharP {p : Char → Bool} {prev : Option Char} {cs : List Char} {n : Nat}
    (h : n ∈ mCharP p prev cs) : n = 1 ∧ ∃ c t, cs = c :: t ∧ p c = true := by
  rcases cs with _ | ⟨c, t⟩
  · simp [mCharP] at h
  · by_cases hp : p c = true
    · have he : mCharP p prev (c :: t) = [1] := by simp [mCharP, hp]
      rw [he] at h
      rcases List.mem_singleton.mp h with rfl
      exact ⟨rfl, c, t, rfl, hp⟩
    · have he : mCharP p prev (c :: t) = [] := by simp [mCharP, hp]
      rw [he] at h
      cases h

theorem rolePatternAt_group1 {sep : Matcher} {prev : Option Char} {cs : List Char}
    {n1 ns n2 : Nat} (h : rolePatternAt sep prev cs = some (n1, ns, n2)) :
    n1 ∈ roleTitleGroupM prev cs := by
  unfold rolePatternAt at h
  have hm := List.mem_of_mem_head? h
  rcases List.mem_flatMap.mp hm with ⟨m1, hm1, hin⟩
  rcases List.mem_flatMap.mp hin with ⟨m2, hm2, hin2⟩
  rcases List.mem_map.mp hin2 with ⟨m3, hm3, heq⟩
  obtain ⟨rfl, rfl, rfl⟩ : m1 = n1 ∧ m2 = ns ∧ m3 = n2 := by
    simpa [Prod.ext_iff] using heq
  exact hm1

theorem findRoleMatch_group1 {sep : Matcher} {prev : Option Char} {cs : List Char}
    {skip n1 ns n2 : Nat} (h : findRoleMatch sep prev cs = some (skip, n1, ns, n2)) :
    ∃ prev', rolePatternAt sep prev' (cs.drop skip) = some (n1, ns, n2) := by
  induction cs generalizing prev skip with
  | nil =>
    unfold findRoleMatch at h
    rcases h0 : rolePatternAt sep prev [] with _ | x
    · rw [h0] at h
      simp at h
    · rw [h0] at h
      obtain ⟨a, b, c⟩ := x
      simp only [Option.some.injEq, Prod.mk.injEq] at h
      obtain ⟨rfl, rfl, rfl, rfl⟩ := h
      exact ⟨prev, h0⟩
  | cons c t ih =>
    unfold findRoleMatch at h
    rcases h0 : rolePatternAt sep prev (c :: t) with _ | x
    · rw [h0] at h
      rcases hf : findRoleMatch sep (some c) t with _ | y
      · rw [hf] at h
        simp at h
      · rw [hf] at h
        obtain ⟨sk, a, b, d⟩ := y
        simp only [Option.map_some', Option.some.injEq, Prod.mk.injEq] at h
        obtain ⟨rfl, rfl, rfl, rfl⟩ := h
        rcases ih hf with ⟨prev', hp⟩
        exact ⟨prev', hp⟩
    · rw [h0] at h
      obtain ⟨a, b, d⟩ := x
      simp only [Option.some.injEq, Prod.mk.injEq] at h
      obtain ⟨rfl, rfl, rfl, rfl⟩ := h
      exact ⟨prev, h0⟩

theorem roleTitleGroupM_head_alpha {prev : Option Char} {cs : List Char} {n : Nat}
    (h : n ∈ roleTitleGroupM prev cs) :
    1 ≤ n ∧ ∃ c t, cs = c :: t ∧ c.isAlpha = true := by
  unfold roleTitleGroupM at h
  rcases mem_mSeq.mp h with ⟨na, nb, ha, hb, rfl⟩
  rcases mem_mCharP ha with ⟨rfl, c, t, rfl, hc⟩
  exact ⟨by omega, c, t, rfl, hc⟩

theorem alpha_not_space {c : Char} (h : c.isAlpha = true) : jsIsSpace c = false := by
  by_contra hne
  have hsp : jsIsSpace c = true := by
    revert hne
    cases jsIsSpace c <;> simp
  unfold jsIsSpace at hsp
  simp only [Bool.or_eq_true, decide_eq_true_eq] at hsp
  rcases hsp with ((((rfl | rfl) | rfl) | rfl) | rfl) | rfl <;> exact absurd h (by decide)

theorem mem_dropLeadingSpace {c : Char} {l : List Char} (hc : jsIsSpace c = false)
    (h : c ∈ l) : c ∈ dropLeadingSpace l := by
  induction l with
  | nil => cases h
  | cons x t ih =>
    unfold dropLeadingSpace
    split_ifs with hx
    · rcases List.mem_cons.mp h with rfl | hmem
      · rw [hx] at hc
        cases hc
      · exact ih hmem
    · exact h

theorem jsTrimL_ne_nil {l : List Char} {c : Char} (hc : jsIsSpace c = false) (h : c ∈ l) :
    jsTrimL l ≠ [] := by
  unfold jsTrimL
  intro hnil
  have h1 : c ∈ dropLeadingSpace l.reverse := mem_dropLeadingSpace hc (List.mem_reverse.mpr h)
  have h2 : c ∈ (dropLeadingSpace l.reverse).reverse := List.mem_reverse.mpr h1
  have h3 : c ∈ dropLeadingSpace (dropLeadingSpace l.reverse).reverse :=
    mem_dropLeadingSpace hc h2
  rw [hnil] at h3
  cases h3

theorem execRolePattern_title_ne_empty (sep : Matcher) (fuel : Nat) :
    ∀ (prev : Option Char) (cs : List Char) (tc : String × String),
      tc ∈ execRolePattern sep fuel prev cs → tc.1 ≠ "" := by
  induction fuel with
  | zero =>
    intro prev cs tc h
    simp [execRolePattern] at h
  | succ fuel ih =>
    intro prev cs tc h
    unfold execRolePattern at h
    rcases hf : findRoleMatch sep prev cs with _ | y
    · rw [hf] at h
      simp at h
    · obtain ⟨skip, n1, ns, n2⟩ := y
      rw [hf] at h
      rcases List.mem_cons.mp h with rfl | hmem
      · rcases findRoleMatch_group1 hf with ⟨prev', hp⟩
        rcases roleTitleGroupM_head_alpha (rolePatternAt_group1 hp) with ⟨hn1, c, t, hdrop, hca⟩
        intro hempty
        have hcmem : c ∈ (cs.drop skip).take n1 := by
          rw [hdrop]
          rcases n1 with _ | m
          · omega
          · rw [List.take_succ_cons]
            exact List.mem_cons_self _ _
        refine jsTrimL_ne_nil (alpha_not_space hca) hcmem ?_
        simpa using congrArg String.data hempty
      · exact ih _ _ _ hmem

theorem extractRoles_title_ne_empty (currentYear : ℤ) (text : String) :
    ∀ r ∈ extractRoles currentYear text, r.title ≠ "" := by
  have hlex : ∀ role ∈ roleTitles, capitalizeTitle role ≠ "" := by decide
  simp only [extractRoles]
  refine foldl_preserve (fun (m : List RoleRecord) => ∀ r ∈ m, r.title ≠ "") _ _ ?_ _ ?_
  · intro acc hacc tc htc
    split_ifs with hd
    · exact hacc
    · intro r hr
      rcases List.mem_append.mp hr with hr | hr
      · exact hacc r hr
      · rcases List.mem_singleton.mp hr with rfl
        exact execRolePattern_title_ne_empty sepNlM _ none _ tc htc
  · refine foldl_preserve (fun (m : List RoleRecord) => ∀ r ∈ m, r.title ≠ "") _ _ ?_ _ ?_
    · intro acc hacc tc htc
      split_ifs with hd
      · exact hacc
      · intro r hr
        rcases List.mem_append.mp hr with hr | hr
        · exact hacc r hr
        · rcases List.mem_singleton.mp hr with rfl
          exact execRolePattern_title_ne_empty sepAtM _ none _ tc htc
    · refine foldl_preserve (fun (m : List RoleRecord) => ∀ r ∈ m, r.title ≠ "") _ _ ?_ _ ?_
      · intro acc hacc line _
        refine foldl_preserve (fun (m : List RoleRecord) => ∀ r ∈ m, r.title ≠ "") _ _ ?_ _ hacc
        intro acc hacc role hrole
        split_ifs with hocc hdup
        · exact hacc
        · intro r hr
          rcases List.mem_append.mp hr with hr | hr
          · exact hacc r hr
          · rcases List.mem_singleton.mp hr with rfl
            exact hlex role hrole
        · exact hacc
      · intro r hr
        cases hr

theorem foldl_congr_id {α : Type} {β : Type} (step : α → β → α) (l : List β)
    (h : ∀ a, ∀ b ∈ l, step a b = a) : ∀ a, l.foldl step a = a := by
  induction l with
  | nil => intro a; rfl
  | cons b bs ih =>
    intro a
    rw [List.foldl_cons, h a b (List.mem_cons_self _ _),
      ih (fun a b hb => h a b (List.mem_cons_of_mem _ hb)) a]

theorem calculateExperienceByRole_eq_nil {roles : List RoleRecord}
    (h : ∀ r ∈ roles, ∀ tk ∈ roleTypes,
      (tk.2.any fun kw => jsIncludes (jsToLower r.title) kw) = false) :
    calculateExperienceByRole roles = [] := by
  unfold calculateExperienceByRole
  have hfold : roles.foldl (fun m role =>
      roleTypes.foldl (fun m tk =>
        if tk.2.any fun kw => jsIncludes (jsToLower role.title) kw then updateEntry m tk.1 role
        else m) m) [] = ([] : List (String × ExperienceEntry)) := by
    refine foldl_congr_id _ _ ?_ []
    intro m role hrole
    refine foldl_congr_id _ _ ?_ m
    intro m tk htk
    rw [h role hrole tk htk]
    simp
  rw [hfold]
  rfl

/-- C10: with no detected roles the primary role is the fixed
`General`/`Professional` object with no `yearsInRole` field; with detected
roles none of which matches any of the five category keyword sets, the
primary role type is `General` with `yearsInRole = 0` while the title is the
first detected role's title. -/
theorem C10_primary_role_defaults (currentYear : ℤ) (text : String) :
    (extractRoles currentYear text = [] →
      (extractInformation currentYear text).primaryRole =
        { type := "General", title := "Professional", yearsInRole := none }) ∧
    (∀ r0, (extractRoles currentYear text).head? = some r0 →
      (∀ r ∈ extractRoles currentYear text, ∀ tk ∈ roleTypes,
        (tk.2.any fun kw => jsIncludes (jsToLower r.title) kw) = false) →
      (extractInformation currentYear text).primaryRole =
        { type := "General", title := r0.title, yearsInRole := some 0 }) := by
  constructor
  · intro h
    show determinePrimaryRole (extractRoles currentYear text)
      (calculateExperienceByRole (extractRoles currentYear text)) = _
    rw [h]
    rfl
  · intro r0 hr0 hnone
    have hne : r0.title ≠ "" :=
      extractRoles_title_ne_empty currentYear text r0 (List.mem_of_mem_head? hr0)
    have hmap := calculateExperienceByRole_eq_nil hnone
    show determinePrimaryRole (extractRoles currentYear text)
      (calculateExperienceByRole (extractRoles currentYear text)) = _
    rw [hmap]
    rcases hcase : extractRoles currentYear text with _ | ⟨a, tl⟩
    · rw [hcase] at hr0
      simp at hr0
    · rw [hcase] at hr0
      simp only [List.head?_cons, Option.some.injEq] at hr0
      subst hr0
      simp [determinePrimaryRole, hne]

/-- Witness for C10: a text with no detectable role, and a text whose only
role ("consultant") matches none of the five category keyword sets. -/
theorem C10_primary_role_defaults_witness :
    (extractInformation 2026 "hello world").primaryRole =
      { type := "General", title := "Professional", yearsInRole := none } ∧
    (extractInformation 2026 "consultant").primaryRole =
      { type := "General", title := "Consultant", yearsInRole := some 0 } := by
  constructor
  · exact (C10_primary_role_defaults 2026 "hello world").1 (by decide)
  · exact (C10_primary_role_defaults 2026 "consultant").2
      { title := "Consultant", years := none, company := none, rawLine := some "consultant" }
      (by decide) (by decide)
